import Mathlib

/-!
Shallow embedding of the core logic of the image-uploader component
(src/components/image-uploader.tsx): file validation, accepted-type
matching, the object-URL lifecycle manager, and the Add / Remove / Move
state transitions of the ordered image sequence.

Modelling conventions:
* A browser File is its observable metadata: name, size (bytes), declared
  MIME type.
* generateId and URL.createObjectURL return fresh values on each call; they
  are modelled as counters threaded through the state (nextId, nextUrl),
  so ids and preview handles are natural numbers.
* JS template error message strings are modelled as a structured inductive
  carrying exactly the values interpolated into each template
  (formatFileSize is display-only formatting of maxFileSize).
* Callbacks (onError, onImagesChange) and URL revocations are modelled as
  effect lists returned alongside the new state, in invocation order.
* JS exceptions are modelled with the JsResult type; a try/catch block is a
  match on it.
* The component is controlled: onImagesChange hands the full new sequence
  to the owner, which echoes it back as the images prop.  The state record
  stores the echoed sequence so that successive operations compose.
-/

/-- A JS string, modelled as its character list so that every operation is
structurally recursive and kernel-computable. -/
abbrev JsStr : Type := List Char

/-- JS String.prototype.trim: strip whitespace from both ends. -/
def jsTrim (s : JsStr) : JsStr :=
  ((s.dropWhile Char.isWhitespace).reverse.dropWhile Char.isWhitespace).reverse

/-- JS String.prototype.toLowerCase (ASCII range, which covers MIME types
and filename extensions). -/
def jsToLower (s : JsStr) : JsStr := s.map Char.toLower

/-- JS s.startsWith(pre). -/
def jsStartsWith (s pre : JsStr) : Bool := List.isPrefixOf pre s

/-- JS s.endsWith(suf). -/
def jsEndsWith (s suf : JsStr) : Bool := List.isSuffixOf suf s

/-- Observable metadata of a browser File: name, size in bytes, declared MIME type. -/
structure JsFile where
  name : JsStr
  size : Nat
  type : JsStr
deriving Repr, DecidableEq

/-- An entry of the ordered sequence: interface ImageFile of the source -
id, the underlying file, and the object-URL preview handle. -/
structure ImageFile where
  id : Nat
  file : JsFile
  preview : Nat
deriving Repr, DecidableEq

/-- The code values of interface ErrorPayload. -/
inductive ErrCode where
  | FILE_TOO_LARGE
  | INVALID_TYPE
  | MAX_FILES_EXCEEDED
  | UNKNOWN
deriving Repr, DecidableEq

/-- Structured form of the message template strings of the source, carrying
exactly the values interpolated into each template. -/
inductive ErrMessage where
  /-- File name exceeds maximum size of formatFileSize maxFileSize. -/
  | fileTooLarge (name : JsStr) (maxFileSize : Nat)
  /-- File name is not an accepted file type; Accepted: acceptedFileTypes. -/
  | notAccepted (name : JsStr) (acceptedFileTypes : Option JsStr)
  /-- Maximum of maxFiles files allowed. -/
  | maxAllowed (maxFiles : Nat)
  /-- Only remainingSlots of validCount files were added due to limit of maxFiles. -/
  | truncated (remainingSlots validCount maxFiles : Nat)
  /-- Failed to clean up image preview. -/
  | cleanupFailed
deriving Repr, DecidableEq

/-- interface ErrorPayload: code, message, optional offending file. -/
structure ErrorPayload where
  code : ErrCode
  message : ErrMessage
  file : Option JsFile
deriving Repr, DecidableEq

/-- Result of a JS computation: a normal value or a propagating exception. -/
inductive JsResult (α : Type) where
  | ok (a : α)
  | thrown (e : String)
deriving Repr, DecidableEq

/-- JS truthiness of an optional numeric prop: undefined and 0 are falsy. -/
def jsTruthy : Option Nat → Bool
  | none => false
  | some n => n != 0

/-- isAcceptedType of the source: checks the declared MIME type and the
filename against the comma-separated accept string. -/
def isAcceptedType (file : JsFile) (acceptedTypes : Option JsStr) : Bool :=
  match acceptedTypes with
  | none => true
  | some s =>
    if jsTrim s = [] then true
    else
      let trimmed := jsTrim s
      if trimmed = ("image/*".toList) then jsStartsWith file.type ("image/".toList)
      else
        let acceptedPatterns := (trimmed.splitOn ',').map (fun t => jsToLower (jsTrim t))
        acceptedPatterns.any (fun pattern =>
          if pattern = ("*/*".toList) then true
          else if jsEndsWith pattern ("/*".toList) then
            let ty := (pattern.splitOn '/').headD []
            jsStartsWith file.type (ty ++ ("/".toList))
          else if jsStartsWith pattern (".".toList) then
            jsEndsWith (jsToLower file.name) pattern
          else file.type == pattern)

/-- validateFile of the useFileValidation hook: size bound first (skipped when
maxFileSize is undefined or 0, both falsy in JS), then type acceptance.
Returns none when valid, some error payload when rejected. -/
def validateFile (file : JsFile) (maxFileSize : Option Nat)
    (acceptedFileTypes : Option JsStr) : Option ErrorPayload :=
  if jsTruthy maxFileSize && decide (file.size > maxFileSize.getD 0) then
    some { code := .FILE_TOO_LARGE,
           message := .fileTooLarge file.name (maxFileSize.getD 0),
           file := some file }
  else if !(isAcceptedType file acceptedFileTypes) then
    some { code := .INVALID_TYPE,
           message := .notAccepted file.name acceptedFileTypes,
           file := some file }
  else none

/-- Configuration surface of the component relevant to the core logic. -/
structure Config where
  maxFiles : Option Nat
  maxFileSize : Option Nat
  acceptedFileTypes : Option JsStr
  disabled : Bool
deriving Repr, DecidableEq

/-- Component state: the (controlled, echoed) image sequence, the set of
object URLs created and not yet revoked (generatedUrlsRef), and the fresh
supplies for generateId and URL.createObjectURL. -/
structure UploaderState where
  images : List ImageFile
  urls : List Nat
  nextId : Nat
  nextUrl : Nat
deriving Repr, DecidableEq

/-- Observable effects of one operation, in invocation order: onError calls,
onImagesChange calls, acquired preview handles (URL.createObjectURL), and
URLs actually passed to URL.revokeObjectURL. -/
structure Effects where
  errors : List ErrorPayload := []
  changes : List (List ImageFile) := []
  acquired : List Nat := []
  revoked : List Nat := []
deriving Repr, DecidableEq

/-- The filesToAdd.map of handleFileSelect lines 607-610: each kept file is
paired with a fresh id (generateId) and a fresh preview handle
(createObjectURL), modelled by consecutive counter values. -/
def mkNewImages (files : List JsFile) (nextId nextUrl : Nat) : List ImageFile :=
  match files with
  | [] => []
  | f :: rest => { id := nextId, file := f, preview := nextUrl } :: mkNewImages rest (nextId + 1) (nextUrl + 1)

/-- handleFileSelect of the source (Add): validates the batch, reports one
error per rejected file, enforces the optional max-files ceiling on the
accepted files (remainingSlots none models Infinity when maxFiles is falsy),
then appends the kept files, each with fresh id and preview. -/
def handleFileSelect (cfg : Config) (st : UploaderState) (files : List JsFile) :
    UploaderState × Effects :=
  if files.isEmpty || cfg.disabled then (st, {}) else
  let validFiles := files.filter fun f =>
    (validateFile f cfg.maxFileSize cfg.acceptedFileTypes).isNone
  let errors := files.filterMap fun f =>
    validateFile f cfg.maxFileSize cfg.acceptedFileTypes
  if validFiles.isEmpty then (st, { errors := errors }) else
  let remainingSlots : Option Nat :=
    if jsTruthy cfg.maxFiles then some (cfg.maxFiles.getD 0 - st.images.length) else none
  if remainingSlots == some 0 then
    (st, { errors := errors ++
            [{ code := .MAX_FILES_EXCEEDED,
               message := .maxAllowed (cfg.maxFiles.getD 0), file := none }] })
  else
    let exceeds : Bool := match remainingSlots with
      | some r => decide (validFiles.length > r)
      | none => false
    let filesToAdd := if exceeds then validFiles.take (remainingSlots.getD 0) else validFiles
    let limitErrors : List ErrorPayload :=
      if exceeds then
        [{ code := .MAX_FILES_EXCEEDED,
           message := .truncated (remainingSlots.getD 0) validFiles.length (cfg.maxFiles.getD 0),
           file := none }]
      else []
    let newImages := mkNewImages filesToAdd st.nextId st.nextUrl
    ({ images := st.images ++ newImages,
       urls := st.urls ++ newImages.map (fun i => i.preview),
       nextId := st.nextId + filesToAdd.length,
       nextUrl := st.nextUrl + filesToAdd.length },
     { errors := errors ++ limitErrors,
       changes := [st.images ++ newImages],
       acquired := newImages.map (fun i => i.preview),
       revoked := [] })

/-- URL.revokeObjectURL of the browser: may throw, depending on the ambient
failure behaviour fails. -/
def rawRevokeObjectURL (fails : Nat → Bool) (url : Nat) : JsResult Unit :=
  if fails url then .thrown "revoke failure" else .ok ()

/-- safeRevokeObjectURL of the source: try URL.revokeObjectURL, catch any
failure and hand it to the optional error sink.  Returns the list of errors
passed to the sink. -/
def safeRevokeObjectURL (fails : Nat → Bool) (url : Nat) : JsResult (List String) :=
  match rawRevokeObjectURL fails url with
  | .ok _ => .ok []
  | .thrown e => .ok [e]

/-- revokeObjectURL of the useObjectURLs hook: only a URL present in the
tracked set is revoked (then deleted from the set); an unknown URL is a
no-op.  Returns the new tracked set, the URLs passed to
URL.revokeObjectURL, and the errors handed to the sink. -/
def revokeObjectURL (fails : Nat → Bool) (urls : List Nat) (url : Nat) :
    JsResult (List Nat × List Nat × List String) :=
  if url ∈ urls then
    match safeRevokeObjectURL fails url with
    | .ok sunk => .ok (urls.erase url, [url], sunk)
    | .thrown e => .thrown e
  else .ok (urls, [], [])

/-- handleDelete of the source (Remove): find the image by id, release its
preview through revokeObjectURL (mapping a sink error to an UNKNOWN
payload), then hand the filtered sequence to onImagesChange. -/
def handleDelete (fails : Nat → Bool) (st : UploaderState) (id : Nat) :
    JsResult (UploaderState × Effects) :=
  match st.images.find? (fun img => img.id == id) with
  | some img =>
    match revokeObjectURL fails st.urls img.preview with
    | .ok (urls', revoked, sunk) =>
      let newImages := st.images.filter (fun img => img.id != id)
      .ok ({ st with images := newImages, urls := urls' },
           { errors := sunk.map (fun _ =>
               { code := .UNKNOWN, message := .cleanupFailed, file := none }),
             changes := [newImages],
             acquired := [],
             revoked := revoked })
    | .thrown e => .thrown e
  | none =>
    let newImages := st.images.filter (fun img => img.id != id)
    .ok ({ st with images := newImages },
         { errors := [], changes := [newImages], acquired := [], revoked := [] })

/-- arrayMove of the dnd-kit library (external dependency of handleDragEnd):
remove the element at index i and re-insert it at index j.  Out-of-range i
leaves the list unchanged; handleDragEnd only calls it with indices
returned by findIndex. -/
def arrayMove (l : List ImageFile) (i j : Nat) : List ImageFile :=
  match l.get? i with
  | some a => (l.eraseIdx i).insertIdx j a
  | none => l

/-- handleDragEnd of the source (Move): on drop completion with an active id
and an optional over id, move the active item to the over item's position
when both resolve to distinct existing items; otherwise ignore.  Returns
the resulting sequence and the onImagesChange calls. -/
def handleDragEnd (images : List ImageFile) (activeId : Nat) (overId : Option Nat) :
    List ImageFile × List (List ImageFile) :=
  match overId with
  | none => (images, [])
  | some o =>
    if activeId == o then (images, [])
    else
      match images.findIdx? (fun item => item.id == activeId),
            images.findIdx? (fun item => item.id == o) with
      | some oldIndex, some newIndex =>
        if oldIndex ≠ newIndex then
          let moved := arrayMove images oldIndex newIndex
          (moved, [moved])
        else (images, [])
      | _, _ => (images, [])

/-! Sample data used by closed witness and counterexample statements. -/

/-- A small valid png file. -/
def samplePng : JsFile := { name := "a.png".toList, size := 3, type := "image/png".toList }

/-- A pdf file, rejected by the default image pattern. -/
def samplePdf : JsFile := { name := "d.pdf".toList, size := 3, type := "application/pdf".toList }

/-- A png file larger than the sample size bound. -/
def sampleBig : JsFile := { name := "big.png".toList, size := 99, type := "image/png".toList }

/-- One sequence entry holding samplePng. -/
def sampleImg : ImageFile := { id := 0, file := samplePng, preview := 0 }

/-- Sample configuration: at most 1 file, at most 5 bytes, images only. -/
def sampleCfg : Config :=
  { maxFiles := some 1, maxFileSize := some 5, acceptedFileTypes := some ("image/*".toList), disabled := false }

/-- Sample state already holding one image, its preview tracked. -/
def sampleSt : UploaderState := { images := [sampleImg], urls := [0], nextId := 1, nextUrl := 1 }

/-- The empty uploader state. -/
def sampleEmptySt : UploaderState := { images := [], urls := [], nextId := 0, nextUrl := 0 }

/-- A three-element sequence with ids 0, 1, 2. -/
def sampleSeq : List ImageFile :=
  [ { id := 0, file := samplePng, preview := 0 },
    { id := 1, file := samplePdf, preview := 1 },
    { id := 2, file := sampleBig, preview := 2 } ]

/-! Helper lemmas about the fresh-image construction. -/

theorem mkNewImages_map_file (files : List JsFile) (n u : Nat) :
    (mkNewImages files n u).map (fun i => i.file) = files := by
  induction files generalizing n u with
  | nil => rfl
  | cons f rest ih => simp [mkNewImages, ih]

theorem mkNewImages_map_id (files : List JsFile) (n u : Nat) :
    (mkNewImages files n u).map (fun i => i.id) = List.range' n files.length := by
  induction files generalizing n u with
  | nil => rfl
  | cons f rest ih => simp [mkNewImages, List.range'_succ, ih]

theorem mkNewImages_map_preview (files : List JsFile) (n u : Nat) :
    (mkNewImages files n u).map (fun i => i.preview) = List.range' u files.length := by
  induction files generalizing n u with
  | nil => rfl
  | cons f rest ih => simp [mkNewImages, List.range'_succ, ih]

theorem mkNewImages_length (files : List JsFile) (n u : Nat) :
    (mkNewImages files n u).length = files.length := by
  induction files generalizing n u with
  | nil => rfl
  | cons f rest ih => simp [mkNewImages, ih]

theorem mkNewImages_mem_file {img : ImageFile} {files : List JsFile} {n u : Nat}
    (h : img ∈ mkNewImages files n u) : img.file ∈ files := by
  induction files generalizing n u with
  | nil => simp [mkNewImages] at h
  | cons f rest ih =>
    simp only [mkNewImages, List.mem_cons] at h
    rcases h with h | h
    · subst h; simp
    · exact List.mem_cons_of_mem _ (ih h)

theorem mkNewImages_mem_id_ge {img : ImageFile} {files : List JsFile} {n u : Nat}
    (h : img ∈ mkNewImages files n u) : n ≤ img.id := by
  induction files generalizing n u with
  | nil => simp [mkNewImages] at h
  | cons f rest ih =>
    simp only [mkNewImages, List.mem_cons] at h
    rcases h with h | h
    · subst h; simp
    · exact Nat.le_of_succ_le (ih h)

/-! Helper lemmas about the lifecycle manager. -/

theorem safeRevokeObjectURL_eq (fails : Nat → Bool) (url : Nat) :
    safeRevokeObjectURL fails url =
      .ok (if fails url then ["revoke failure"] else []) := by
  unfold safeRevokeObjectURL rawRevokeObjectURL
  by_cases h : fails url <;> simp [h]

theorem revokeObjectURL_eq (fails : Nat → Bool) (urls : List Nat) (url : Nat) :
    revokeObjectURL fails urls url =
      if url ∈ urls then
        .ok (urls.erase url, [url], if fails url then ["revoke failure"] else [])
      else .ok (urls, [], []) := by
  unfold revokeObjectURL
  rw [safeRevokeObjectURL_eq]

/-- When every file of a non-empty batch validates, the dropzone is enabled,
and either no ceiling is configured (maxFiles undefined or 0) or the
remaining capacity covers the whole batch, handleFileSelect appends all the
files, reports no error, and announces the full new sequence once. -/
theorem handleFileSelect_all_valid (cfg : Config) (st : UploaderState) (files : List JsFile)
    (hdis : cfg.disabled = false) (hne : files ≠ [])
    (hvalid : ∀ f ∈ files, validateFile f cfg.maxFileSize cfg.acceptedFileTypes = none)
    (hcap : ∀ n, cfg.maxFiles = some n → n = 0 ∨ st.images.length + files.length ≤ n) :
    handleFileSelect cfg st files =
      ({ images := st.images ++ mkNewImages files st.nextId st.nextUrl,
         urls := st.urls ++ (mkNewImages files st.nextId st.nextUrl).map (fun i => i.preview),
         nextId := st.nextId + files.length,
         nextUrl := st.nextUrl + files.length },
       { errors := [],
         changes := [st.images ++ mkNewImages files st.nextId st.nextUrl],
         acquired := (mkNewImages files st.nextId st.nextUrl).map (fun i => i.preview),
         revoked := [] }) := by
  have hfilter : (files.filter fun f =>
      (validateFile f cfg.maxFileSize cfg.acceptedFileTypes).isNone) = files :=
    List.filter_eq_self.mpr fun a ha => by rw [hvalid a ha]; rfl
  have herr : (files.filterMap fun f =>
      validateFile f cfg.maxFileSize cfg.acceptedFileTypes) = [] :=
    List.filterMap_eq_nil_iff.mpr hvalid
  have hie : files.isEmpty = false := by
    cases files with
    | nil => exact absurd rfl hne
    | cons a t => rfl
  have hlen : 0 < files.length := List.length_pos.mpr hne
  unfold handleFileSelect
  rw [hfilter, herr, hie, hdis]
  rcases hmf : cfg.maxFiles with _ | n
  · simp [jsTruthy, hne]
  · by_cases hn : n = 0
    · subst hn
      simp [jsTruthy, hne]
    · rcases hcap n hmf with h0 | hcap'
      · exact absurd h0 hn
      · have hslot : n - st.images.length ≠ 0 := by omega
        have hexc : ¬ files.length > n - st.images.length := by omega
        simp [jsTruthy, hn, hslot, hexc, hne]

/-- C6: isAcceptedType supports wildcard subtype matching (pattern image/*
accepts a file typed image/png and rejects application/pdf; the general
wildcard path accepts video/mp4 under video/*), case-insensitive
extension matching (.png accepts photo.PNG, rejects photo.jpg), exact MIME
matching (video/mp4 accepted, video/avi rejected), and the universal
wildcard (*/* accepts anything). -/
theorem claim_C6 :
    isAcceptedType samplePng (some ("image/*".toList)) = true ∧
    isAcceptedType samplePdf (some ("image/*".toList)) = false ∧
    isAcceptedType { name := "photo.PNG".toList, size := 1, type := [] } (some (".png".toList)) = true ∧
    isAcceptedType { name := "photo.jpg".toList, size := 1, type := [] } (some (".png".toList)) = false ∧
    isAcceptedType { name := "v.mp4".toList, size := 1, type := "video/mp4".toList } (some ("video/mp4".toList)) = true ∧
    isAcceptedType { name := "v.mp4".toList, size := 1, type := "video/avi".toList } (some ("video/mp4".toList)) = false ∧
    isAcceptedType { name := "v.mp4".toList, size := 1, type := "video/mp4".toList } (some ("video/*".toList)) = true ∧
    isAcceptedType { name := "x.bin".toList, size := 1, type := "application/octet-stream".toList } (some ("*/*".toList)) = true := by
  decide

/-- C7: release of a handle unknown to the lifecycle manager (not in the
tracked set, in particular one already released) attempts no revocation and
is not an error; release never propagates an exception, for every failure
behaviour of the underlying revocation, and a failure is reported only
through the error sink. -/
theorem claim_C7 (fails : Nat → Bool) (urls : List Nat) (url : Nat)
    (hnd : urls.Nodup) :
    (∀ e, safeRevokeObjectURL fails url ≠ .thrown e) ∧
    (url ∉ urls → revokeObjectURL fails urls url = .ok (urls, [], [])) ∧
    (∀ e, revokeObjectURL fails urls url ≠ .thrown e) ∧
    (∀ urls' revoked sunk, revokeObjectURL fails urls url = .ok (urls', revoked, sunk) →
       url ∉ urls' ∧
       revokeObjectURL fails urls' url = .ok (urls', [], []) ∧
       sunk = (if url ∈ urls then (if fails url then ["revoke failure"] else []) else [])) := by
  refine ⟨?_, ?_, ?_, ?_⟩
  · intro e
    rw [safeRevokeObjectURL_eq]
    simp
  · intro h
    rw [revokeObjectURL_eq]
    simp [h]
  · intro e
    rw [revokeObjectURL_eq]
    by_cases h : url ∈ urls <;> simp [h]
  · intro urls' revoked sunk h
    rw [revokeObjectURL_eq] at h
    by_cases hm : url ∈ urls
    · simp only [hm, if_true] at h
      obtain ⟨h1, _, h3⟩ : urls.erase url = urls' ∧ [url] = revoked ∧
          (if fails url then ["revoke failure"] else []) = sunk := by
        simpa using h
      have hout : url ∉ urls' := h1 ▸ hnd.not_mem_erase
      refine ⟨hout, ?_, ?_⟩
      · rw [revokeObjectURL_eq]
        simp [hout]
      · rw [if_pos hm, ← h3]
    · simp only [hm, if_false] at h
      obtain ⟨h1, _, h3⟩ : urls = urls' ∧ ([] : List Nat) = revoked ∧ ([] : List String) = sunk := by
        simpa using h
      have hout : url ∉ urls' := h1 ▸ hm
      refine ⟨hout, ?_, ?_⟩
      · rw [revokeObjectURL_eq]
        simp [hout]
      · rw [if_neg hm, ← h3]

/-- Witness for C7 at a concrete input: releasing a handle the manager never
created leaves the tracked set alone and attempts nothing. -/
theorem claim_C7_witness :
    revokeObjectURL (fun u => u == 9) [3] 9 = .ok ([3], [], []) :=
  (claim_C7 (fun u => u == 9) [3] 9 (by decide)).2.1 (by decide)

/-- C10: validateFile reports FILE_TOO_LARGE only when maxFileSize is
supplied and nonzero; with maxFileSize undefined or 0 the size check is
skipped, so a type-accepted file of any size validates and is appended by
handleFileSelect - 0 means unlimited, not zero capacity. -/
theorem claim_C10 (f : JsFile) (aft : Option JsStr) (st : UploaderState)
    (hacc : isAcceptedType f aft = true) :
    validateFile f none aft = none ∧
    validateFile f (some 0) aft = none ∧
    (∀ mfs e, validateFile f mfs aft = some e → e.code = .FILE_TOO_LARGE →
       ∃ k, mfs = some k ∧ k ≠ 0 ∧ f.size > k) ∧
    (handleFileSelect
        { maxFiles := none, maxFileSize := some 0, acceptedFileTypes := aft, disabled := false }
        st [f]).1.images
      = st.images ++ [{ id := st.nextId, file := f, preview := st.nextUrl }] := by
  have h0 : validateFile f (some 0) aft = none := by
    simp [validateFile, jsTruthy, hacc]
  refine ⟨by simp [validateFile, jsTruthy, hacc], h0, ?_, ?_⟩
  · intro mfs e he hcode
    unfold validateFile at he
    by_cases hsz : jsTruthy mfs && decide (f.size > mfs.getD 0)
    · rcases mfs with _ | k
      · simp [jsTruthy] at hsz
      · simp only [jsTruthy, bne_iff_ne, ne_eq, Option.getD_some, Bool.and_eq_true,
          decide_eq_true_eq] at hsz
        exact ⟨k, rfl, hsz.1, hsz.2⟩
    · rw [if_neg hsz] at he
      by_cases hty : isAcceptedType f aft
      · simp [hty] at he
      · simp only [hty, Bool.not_false, if_true] at he
        rw [← Option.some.inj he] at hcode
        simp at hcode
  · rw [handleFileSelect_all_valid _ st [f] rfl (by simp)
      (by intro g hg; rw [List.mem_singleton.mp hg]; exact h0)
      (by intro n hn; cases hn)]
    rfl

/-- Witness for C10: a 100-byte png passes validation under a 0 size bound
and is appended to the empty sequence. -/
theorem claim_C10_witness :
    validateFile sampleBig (some 0) (some ("image/*".toList)) = none :=
  (claim_C10 sampleBig (some ("image/*".toList)) sampleEmptySt (by decide)).2.1

/-- C1: for every current sequence and every batch in which each file is
within the size bound and type-accepted (validateFile accepts it), with
the dropzone enabled and either no maximum-count ceiling or sufficient
remaining capacity, handleFileSelect appends exactly the batch files to the
end of the sequence in input order, pairs each with a freshly generated id
and a freshly acquired preview handle (consecutive fresh counter values,
pairwise distinct and distinct from every existing id), leaves the
previously present items and their relative order unchanged, and reports no
error. -/
theorem claim_C1 (cfg : Config) (st : UploaderState) (files : List JsFile)
    (hdis : cfg.disabled = false)
    (hvalid : ∀ f ∈ files, validateFile f cfg.maxFileSize cfg.acceptedFileTypes = none)
    (hcap : ∀ n, cfg.maxFiles = some n → n = 0 ∨ st.images.length + files.length ≤ n)
    (hid : ∀ img ∈ st.images, img.id < st.nextId) :
    (handleFileSelect cfg st files).1.images
      = st.images ++ mkNewImages files st.nextId st.nextUrl ∧
    (mkNewImages files st.nextId st.nextUrl).map (fun i => i.file) = files ∧
    (mkNewImages files st.nextId st.nextUrl).map (fun i => i.id)
      = List.range' st.nextId files.length ∧
    (mkNewImages files st.nextId st.nextUrl).map (fun i => i.preview)
      = List.range' st.nextUrl files.length ∧
    ((mkNewImages files st.nextId st.nextUrl).map (fun i => i.id)).Nodup ∧
    (∀ a ∈ mkNewImages files st.nextId st.nextUrl, ∀ b ∈ st.images, a.id ≠ b.id) ∧
    (handleFileSelect cfg st files).2.errors = [] := by
  by_cases hne : files = []
  · subst hne
    simp [handleFileSelect, mkNewImages]
  · rw [handleFileSelect_all_valid cfg st files hdis hne hvalid hcap]
    refine ⟨rfl, mkNewImages_map_file _ _ _, mkNewImages_map_id _ _ _,
      mkNewImages_map_preview _ _ _, ?_, ?_, rfl⟩
    · rw [mkNewImages_map_id]
      exact List.nodup_range' _ _
    · intro a ha b hb
      have h1 := mkNewImages_mem_id_ge ha
      have h2 := hid b hb
      omega

/-- Witness for C1: adding one small png to the empty sequence appends it. -/
theorem claim_C1_witness :
    (handleFileSelect sampleCfg sampleEmptySt [samplePng]).1.images
      = sampleEmptySt.images ++ mkNewImages [samplePng] sampleEmptySt.nextId sampleEmptySt.nextUrl :=
  (claim_C1 sampleCfg sampleEmptySt [samplePng] rfl (by decide)
    (by intro n hn
        have hn' : n = 1 := by
          have : (some 1 : Option Nat) = some n := hn
          exact (Option.some.inj this).symm
        subst hn'
        right
        decide)
    (by intro img h; cases h)).1

/-! Branch characterizations of handleFileSelect. -/

theorem handleFileSelect_nil (cfg : Config) (st : UploaderState) :
    handleFileSelect cfg st [] = (st, {}) := by
  simp [handleFileSelect]

theorem handleFileSelect_disabled (cfg : Config) (st : UploaderState) (files : List JsFile)
    (h : cfg.disabled = true) :
    handleFileSelect cfg st files = (st, {}) := by
  unfold handleFileSelect
  simp [h]

theorem handleFileSelect_no_valid (cfg : Config) (st : UploaderState) (files : List JsFile)
    (hdis : cfg.disabled = false) (hne : files ≠ [])
    (hnv : files.filter (fun g => (validateFile g cfg.maxFileSize cfg.acceptedFileTypes).isNone) = []) :
    handleFileSelect cfg st files =
      (st, { errors := files.filterMap fun g =>
               validateFile g cfg.maxFileSize cfg.acceptedFileTypes }) := by
  unfold handleFileSelect
  simp [hdis, hne, hnv]

theorem handleFileSelect_full (cfg : Config) (st : UploaderState) (files : List JsFile) (n : Nat)
    (hdis : cfg.disabled = false) (hne : files ≠ [])
    (hnv : files.filter (fun g => (validateFile g cfg.maxFileSize cfg.acceptedFileTypes).isNone) ≠ [])
    (hmf : cfg.maxFiles = some n) (hn : n ≠ 0) (hfull : n ≤ st.images.length) :
    handleFileSelect cfg st files =
      (st, { errors := (files.filterMap fun g =>
               validateFile g cfg.maxFileSize cfg.acceptedFileTypes)
             ++ [{ code := .MAX_FILES_EXCEEDED, message := .maxAllowed n, file := none }] }) := by
  have hslot : n - st.images.length = 0 := by omega
  unfold handleFileSelect
  simp [hdis, hne, hnv, hmf, jsTruthy, hn, hslot]

theorem handleFileSelect_fits (cfg : Config) (st : UploaderState) (files : List JsFile)
    (hdis : cfg.disabled = false) (hne : files ≠ [])
    (hnv : files.filter (fun g => (validateFile g cfg.maxFileSize cfg.acceptedFileTypes).isNone) ≠ [])
    (hcap : ∀ n, cfg.maxFiles = some n → n = 0 ∨
      (st.images.length < n ∧
       (files.filter (fun g => (validateFile g cfg.maxFileSize cfg.acceptedFileTypes).isNone)).length
         ≤ n - st.images.length)) :
    handleFileSelect cfg st files =
      ({ images := st.images ++ mkNewImages
           (files.filter (fun g => (validateFile g cfg.maxFileSize cfg.acceptedFileTypes).isNone))
           st.nextId st.nextUrl,
         urls := st.urls ++ (mkNewImages
           (files.filter (fun g => (validateFile g cfg.maxFileSize cfg.acceptedFileTypes).isNone))
           st.nextId st.nextUrl).map (fun i => i.preview),
         nextId := st.nextId +
           (files.filter (fun g => (validateFile g cfg.maxFileSize cfg.acceptedFileTypes).isNone)).length,
         nextUrl := st.nextUrl +
           (files.filter (fun g => (validateFile g cfg.maxFileSize cfg.acceptedFileTypes).isNone)).length },
       { errors := files.filterMap fun g => validateFile g cfg.maxFileSize cfg.acceptedFileTypes,
         changes := [st.images ++ mkNewImages
           (files.filter (fun g => (validateFile g cfg.maxFileSize cfg.acceptedFileTypes).isNone))
           st.nextId st.nextUrl],
         acquired := (mkNewImages
           (files.filter (fun g => (validateFile g cfg.maxFileSize cfg.acceptedFileTypes).isNone))
           st.nextId st.nextUrl).map (fun i => i.preview),
         revoked := [] }) := by
  unfold handleFileSelect
  rcases hmf : cfg.maxFiles with _ | n
  · simp [hdis, hne, hnv, jsTruthy]
  · by_cases hn : n = 0
    · subst hn
      simp [hdis, hne, hnv, hmf, jsTruthy]
    · rcases hcap n hmf with h0 | ⟨hlt, hle⟩
      · exact absurd h0 hn
      · have hslot : n - st.images.length ≠ 0 := by omega
        have hexc : ¬ (files.filter (fun g =>
            (validateFile g cfg.maxFileSize cfg.acceptedFileTypes).isNone)).length
              > n - st.images.length := by omega
        simp [hdis, hne, hnv, hmf, jsTruthy, hn, hslot, hexc]

theorem handleFileSelect_trunc (cfg : Config) (st : UploaderState) (files : List JsFile) (n : Nat)
    (hdis : cfg.disabled = false) (hne : files ≠ [])
    (hmf : cfg.maxFiles = some n) (hlt : st.images.length < n)
    (hexc : (files.filter (fun g => (validateFile g cfg.maxFileSize cfg.acceptedFileTypes).isNone)).length
      > n - st.images.length) :
    handleFileSelect cfg st files =
      ({ images := st.images ++ mkNewImages
           ((files.filter (fun g => (validateFile g cfg.maxFileSize cfg.acceptedFileTypes).isNone)).take
             (n - st.images.length))
           st.nextId st.nextUrl,
         urls := st.urls ++ (mkNewImages
           ((files.filter (fun g => (validateFile g cfg.maxFileSize cfg.acceptedFileTypes).isNone)).take
             (n - st.images.length))
           st.nextId st.nextUrl).map (fun i => i.preview),
         nextId := st.nextId + (n - st.images.length),
         nextUrl := st.nextUrl + (n - st.images.length) },
       { errors := (files.filterMap fun g => validateFile g cfg.maxFileSize cfg.acceptedFileTypes)
             ++ [{ code := .MAX_FILES_EXCEEDED,
                   message := .truncated (n - st.images.length)
                     (files.filter (fun g =>
                       (validateFile g cfg.maxFileSize cfg.acceptedFileTypes).isNone)).length n,
                   file := none }],
         changes := [st.images ++ mkNewImages
           ((files.filter (fun g => (validateFile g cfg.maxFileSize cfg.acceptedFileTypes).isNone)).take
             (n - st.images.length))
           st.nextId st.nextUrl],
         acquired := (mkNewImages
           ((files.filter (fun g => (validateFile g cfg.maxFileSize cfg.acceptedFileTypes).isNone)).take
             (n - st.images.length))
           st.nextId st.nextUrl).map (fun i => i.preview),
         revoked := [] }) := by
  have hn : n ≠ 0 := by omega
  have hslot : n - st.images.length ≠ 0 := by omega
  have hnv : files.filter (fun g =>
      (validateFile g cfg.maxFileSize cfg.acceptedFileTypes).isNone) ≠ [] := by
    intro h
    rw [h] at hexc
    simp at hexc
  have hlen : ((files.filter (fun g =>
      (validateFile g cfg.maxFileSize cfg.acceptedFileTypes).isNone)).take
        (n - st.images.length)).length = n - st.images.length :=
    List.length_take_of_le (by omega)
  unfold handleFileSelect
  simp [hdis, hne, hnv, hmf, jsTruthy, hn, hslot, hexc, hlen]

/-! Helper lemmas about validateFile payloads. -/

theorem validateFile_file_eq {g : JsFile} {mfs : Option Nat} {aft : Option JsStr}
    {e : ErrorPayload} (h : validateFile g mfs aft = some e) : e.file = some g := by
  unfold validateFile at h
  split at h
  · rw [← Option.some.inj h]
  · split at h
    · rw [← Option.some.inj h]
    · simp at h

theorem validateFile_code_ne_max {g : JsFile} {mfs : Option Nat} {aft : Option JsStr}
    {e : ErrorPayload} (h : validateFile g mfs aft = some e) :
    e.code ≠ ErrCode.MAX_FILES_EXCEEDED := by
  unfold validateFile at h
  split at h
  · rw [← Option.some.inj h]
    simp
  · split at h
    · rw [← Option.some.inj h]
      simp
    · simp at h

theorem validateFile_tooLarge {f : JsFile} {mfs : Option Nat} (aft : Option JsStr)
    (hm : jsTruthy mfs = true) (hsize : f.size > mfs.getD 0) :
    validateFile f mfs aft =
      some { code := .FILE_TOO_LARGE,
             message := .fileTooLarge f.name (mfs.getD 0),
             file := some f } := by
  unfold validateFile
  rw [hm, decide_eq_true hsize]
  rfl

/-- Each occurrence of an oversized file f in the batch contributes exactly
one FILE_TOO_LARGE error carrying f to the validation error list. -/
theorem countTooLarge (mfs : Option Nat) (aft : Option JsStr) (f : JsFile)
    (hm : jsTruthy mfs = true) (hsize : f.size > mfs.getD 0) (files : List JsFile) :
    ((files.filterMap fun g => validateFile g mfs aft).filter
        (fun e => e.code == ErrCode.FILE_TOO_LARGE && e.file == some f)).length
      = files.count f := by
  induction files with
  | nil => rfl
  | cons g rest ih =>
    by_cases hg : g = f
    · subst hg
      rw [List.filterMap_cons, validateFile_tooLarge aft hm hsize]
      simp only [List.filter_cons, List.count_cons]
      simp [ih]
    · rw [List.filterMap_cons]
      cases hV : validateFile g mfs aft with
      | none => simp [ih, List.count_cons, hg]
      | some e =>
        have hf : e.file = some g := validateFile_file_eq hV
        have : (e.file == some f) = false := by
          rw [hf]
          simpa using hg
        simp [List.filter_cons, this, ih, List.count_cons, hg]

/-- C5: every file whose size exceeds a truthy size bound is rejected by
validateFile with a FILE_TOO_LARGE payload carrying the file, excluded from
the resulting sequence (each occurrence in the batch produces exactly one
such error), and no preview handle is acquired for it (the acquired handles
are exactly the previews of the appended images, none of which holds the
oversized file). -/
theorem claim_C5 (cfg : Config) (st : UploaderState) (files : List JsFile) (f : JsFile)
    (hdis : cfg.disabled = false)
    (hm : jsTruthy cfg.maxFileSize = true)
    (hsize : f.size > cfg.maxFileSize.getD 0) :
    validateFile f cfg.maxFileSize cfg.acceptedFileTypes
      = some { code := .FILE_TOO_LARGE,
               message := .fileTooLarge f.name (cfg.maxFileSize.getD 0),
               file := some f } ∧
    ((handleFileSelect cfg st files).2.errors.filter
        (fun e => e.code == ErrCode.FILE_TOO_LARGE && e.file == some f)).length
      = files.count f ∧
    (∀ img ∈ (handleFileSelect cfg st files).1.images, img ∈ st.images ∨ img.file ≠ f) ∧
    ((handleFileSelect cfg st files).1.images.drop st.images.length).map (fun i => i.preview)
      = (handleFileSelect cfg st files).2.acquired := by
  have hvf := validateFile_tooLarge cfg.acceptedFileTypes hm hsize
  have hcount := countTooLarge cfg.maxFileSize cfg.acceptedFileTypes f hm hsize files
  have hadded : ∀ kept : List JsFile,
      kept ⊆ files.filter (fun g => (validateFile g cfg.maxFileSize cfg.acceptedFileTypes).isNone) →
      ∀ img ∈ mkNewImages kept st.nextId st.nextUrl, img.file ≠ f := by
    intro kept hsub img hmem hEq
    have h1 := mkNewImages_mem_file hmem
    have h2 := hsub h1
    rw [List.mem_filter, hEq, hvf] at h2
    simp at h2
  have hfinish : ∀ (kept : List JsFile) (tail : List ErrorPayload),
      kept ⊆ files.filter (fun g => (validateFile g cfg.maxFileSize cfg.acceptedFileTypes).isNone) →
      (∀ e ∈ tail, (e.code == ErrCode.FILE_TOO_LARGE && e.file == some f) = false) →
      (((files.filterMap fun g => validateFile g cfg.maxFileSize cfg.acceptedFileTypes) ++ tail).filter
          (fun e => e.code == ErrCode.FILE_TOO_LARGE && e.file == some f)).length = files.count f ∧
      (∀ img ∈ st.images ++ mkNewImages kept st.nextId st.nextUrl, img ∈ st.images ∨ img.file ≠ f) ∧
      (((st.images ++ mkNewImages kept st.nextId st.nextUrl).drop st.images.length).map (fun i => i.preview))
        = (mkNewImages kept st.nextId st.nextUrl).map (fun i => i.preview) := by
    intro kept tail hsub htail
    refine ⟨?_, ?_, ?_⟩
    · have htail0 : tail.filter
          (fun e => e.code == ErrCode.FILE_TOO_LARGE && e.file == some f) = [] :=
        List.filter_eq_nil_iff.mpr (by intro e he; simp [htail e he])
      rw [List.filter_append, htail0, List.append_nil]
      exact hcount
    · intro img hm2
      rcases List.mem_append.mp hm2 with h | h
      · exact Or.inl h
      · exact Or.inr (hadded kept hsub img h)
    · rw [List.drop_left]
  refine ⟨hvf, ?_⟩
  by_cases hne : files = []
  · subst hne
    rw [handleFileSelect_nil]
    exact ⟨rfl, fun img h => Or.inl h, by simp⟩
  by_cases hnv : files.filter
      (fun g => (validateFile g cfg.maxFileSize cfg.acceptedFileTypes).isNone) = []
  · rw [handleFileSelect_no_valid cfg st files hdis hne hnv]
    refine ⟨?_, fun img h => Or.inl h, by simp⟩
    simpa using hcount
  rcases hmf : cfg.maxFiles with _ | n
  · rw [handleFileSelect_fits cfg st files hdis hne hnv
      (by intro m h; rw [hmf] at h; cases h)]
    obtain ⟨h1, h2, h3⟩ := hfinish
      (files.filter (fun g => (validateFile g cfg.maxFileSize cfg.acceptedFileTypes).isNone)) []
      (List.Subset.refl _) (by intro e he; cases he)
    exact ⟨by simpa using h1, h2, h3⟩
  · by_cases hn : n = 0
    · rw [handleFileSelect_fits cfg st files hdis hne hnv
        (by intro m h
            rw [hmf] at h
            have hmn : n = m := Option.some.inj h
            omega)]
      obtain ⟨h1, h2, h3⟩ := hfinish
        (files.filter (fun g => (validateFile g cfg.maxFileSize cfg.acceptedFileTypes).isNone)) []
        (List.Subset.refl _) (by intro e he; cases he)
      exact ⟨by simpa using h1, h2, h3⟩
    · by_cases hfull : n ≤ st.images.length
      · rw [handleFileSelect_full cfg st files n hdis hne hnv hmf hn hfull]
        obtain ⟨h1, _, _⟩ := hfinish []
          [{ code := .MAX_FILES_EXCEEDED, message := .maxAllowed n, file := none }]
          (List.nil_subset _)
          (by intro e he
              rw [List.mem_singleton] at he
              subst he
              rfl)
        exact ⟨h1, fun img h => Or.inl h, by simp⟩
      · have hlt : st.images.length < n := by omega
        by_cases hexc : (files.filter
            (fun g => (validateFile g cfg.maxFileSize cfg.acceptedFileTypes).isNone)).length
              > n - st.images.length
        · rw [handleFileSelect_trunc cfg st files n hdis hne hmf hlt hexc]
          obtain ⟨h1, h2, h3⟩ := hfinish
            ((files.filter (fun g =>
                (validateFile g cfg.maxFileSize cfg.acceptedFileTypes).isNone)).take
              (n - st.images.length))
            [{ code := .MAX_FILES_EXCEEDED,
               message := .truncated (n - st.images.length)
                 (files.filter (fun g =>
                   (validateFile g cfg.maxFileSize cfg.acceptedFileTypes).isNone)).length n,
               file := none }]
            (List.take_subset _ _)
            (by intro e he
                rw [List.mem_singleton] at he
                subst he
                rfl)
          exact ⟨h1, h2, h3⟩
        · rw [handleFileSelect_fits cfg st files hdis hne hnv
            (by intro m h
                rw [hmf] at h
                have hmn : n = m := Option.some.inj h
                subst hmn
                exact Or.inr ⟨hlt, by omega⟩)]
          obtain ⟨h1, h2, h3⟩ := hfinish
            (files.filter (fun g => (validateFile g cfg.maxFileSize cfg.acceptedFileTypes).isNone)) []
            (List.Subset.refl _) (by intro e he; cases he)
          exact ⟨by simpa using h1, h2, h3⟩

/-- Witness for C5: a 99-byte png under a 5-byte bound is rejected and not
added. -/
theorem claim_C5_witness :
    ((handleFileSelect sampleCfg sampleEmptySt [sampleBig]).2.errors.filter
        (fun e => e.code == ErrCode.FILE_TOO_LARGE && e.file == some sampleBig)).length
      = [sampleBig].count sampleBig :=
  (claim_C5 sampleCfg sampleEmptySt [sampleBig] sampleBig rfl rfl (by decide)).2.1

/-- Validation errors never carry the MAX_FILES_EXCEEDED code. -/
theorem valErrors_no_max (mfs : Option Nat) (aft : Option JsStr) (files : List JsFile) :
    (files.filterMap fun g => validateFile g mfs aft).filter
      (fun e => e.code == ErrCode.MAX_FILES_EXCEEDED) = [] :=
  List.filter_eq_nil_iff.mpr (by
    intro e he
    rw [List.mem_filterMap] at he
    obtain ⟨g, _, hg⟩ := he
    simp [validateFile_code_ne_max hg])

/-- C2 counterexample: the claim fails in two concrete situations.  With
maxFiles = 1 and a full one-element sequence, the non-empty batch holding a
single oversized file yields one FILE_TOO_LARGE error and zero
MAX_FILES_EXCEEDED errors, because handleFileSelect returns before the
ceiling check when no file validates.  With maxFiles = 0 and the empty
(hence full, on the claim's reading) sequence, a valid file is inserted
with no error at all, because 0 is falsy and disables the ceiling. -/
theorem claim_C2_counterexample :
    (((handleFileSelect sampleCfg sampleSt [sampleBig]).2.errors.filter
        (fun e => e.code == ErrCode.MAX_FILES_EXCEEDED)).length = 0 ∧
      (handleFileSelect sampleCfg sampleSt [sampleBig]).2.errors ≠ []) ∧
    ((handleFileSelect { sampleCfg with maxFiles := some 0 } sampleEmptySt [samplePng]).2.errors
        = [] ∧
      (handleFileSelect { sampleCfg with maxFiles := some 0 }
        sampleEmptySt [samplePng]).1.images.length = 1) := by
  decide

/-- C2 amended: the ceiling is enforced over accepted files, for a positive
maxFiles = N (0 is falsy and means no ceiling).  If the sequence already
holds at least N items, a batch containing at least one accepted file emits
exactly one MAX_FILES_EXCEEDED error (reported last), and no state change,
no onImagesChange call and no acquisition happen; a batch with no accepted
file emits only its per-file validation errors.  If the remaining capacity
r = N - length is positive but smaller than the number of accepted files,
exactly the first r accepted files in input order are kept and one
MAX_FILES_EXCEEDED error (reported last) records r, the accepted count and
N. -/
theorem claim_C2 (cfg : Config) (st : UploaderState) (files : List JsFile) (N : Nat)
    (hdis : cfg.disabled = false)
    (hmax : cfg.maxFiles = some N) (hN : N ≠ 0) :
    (N ≤ st.images.length →
       files.filter (fun g => (validateFile g cfg.maxFileSize cfg.acceptedFileTypes).isNone) ≠ [] →
       ((handleFileSelect cfg st files).2.errors.filter
           (fun e => e.code == ErrCode.MAX_FILES_EXCEEDED)).length = 1 ∧
       (handleFileSelect cfg st files).2.errors.getLast? =
         some { code := .MAX_FILES_EXCEEDED, message := .maxAllowed N, file := none } ∧
       (handleFileSelect cfg st files).1 = st ∧
       (handleFileSelect cfg st files).2.changes = [] ∧
       (handleFileSelect cfg st files).2.acquired = []) ∧
    (st.images.length < N →
       (files.filter (fun g => (validateFile g cfg.maxFileSize cfg.acceptedFileTypes).isNone)).length
           > N - st.images.length →
       (handleFileSelect cfg st files).1.images
         = st.images ++ mkNewImages
             ((files.filter (fun g =>
                 (validateFile g cfg.maxFileSize cfg.acceptedFileTypes).isNone)).take
               (N - st.images.length)) st.nextId st.nextUrl ∧
       ((handleFileSelect cfg st files).1.images.drop st.images.length).map (fun i => i.file)
         = (files.filter (fun g =>
             (validateFile g cfg.maxFileSize cfg.acceptedFileTypes).isNone)).take
             (N - st.images.length) ∧
       ((handleFileSelect cfg st files).2.errors.filter
           (fun e => e.code == ErrCode.MAX_FILES_EXCEEDED)).length = 1 ∧
       (handleFileSelect cfg st files).2.errors.getLast? =
         some { code := .MAX_FILES_EXCEEDED,
                message := .truncated (N - st.images.length)
                  (files.filter (fun g =>
                    (validateFile g cfg.maxFileSize cfg.acceptedFileTypes).isNone)).length N,
                file := none }) := by
  constructor
  · intro hfull hnv
    have hne : files ≠ [] := by
      intro h
      subst h
      exact hnv rfl
    rw [handleFileSelect_full cfg st files N hdis hne hnv hmax hN hfull]
    refine ⟨?_, ?_, rfl, rfl, rfl⟩
    · rw [List.filter_append, valErrors_no_max]
      rfl
    · exact List.getLast?_concat _
  · intro hlt hexc
    have hnv : files.filter (fun g =>
        (validateFile g cfg.maxFileSize cfg.acceptedFileTypes).isNone) ≠ [] := by
      intro h
      rw [h] at hexc
      simp at hexc
    have hne : files ≠ [] := by
      intro h
      subst h
      exact hnv rfl
    rw [handleFileSelect_trunc cfg st files N hdis hne hmax hlt hexc]
    refine ⟨rfl, ?_, ?_, ?_⟩
    · rw [List.drop_left, mkNewImages_map_file]
    · rw [List.filter_append, valErrors_no_max]
      rfl
    · exact List.getLast?_concat _

/-- Witness for the amended C2: adding a small valid png to the full
one-element sequence under maxFiles = 1 emits exactly one
MAX_FILES_EXCEEDED error. -/
theorem claim_C2_witness :
    ((handleFileSelect sampleCfg sampleSt [samplePng]).2.errors.filter
        (fun e => e.code == ErrCode.MAX_FILES_EXCEEDED)).length = 1 :=
  ((claim_C2 sampleCfg sampleSt [samplePng] 1 rfl rfl (by decide)).1
    (by decide) (by decide)).1

/-! Helper lemmas for handleDelete. -/

theorem find_id_eq_get (id : Nat) :
    ∀ (l : List ImageFile) (i : Nat) (h : i < l.length),
      (l.map (fun im => im.id)).Nodup → (l.get ⟨i, h⟩).id = id →
      l.find? (fun im => im.id == id) = some (l.get ⟨i, h⟩) := by
  intro l
  induction l with
  | nil =>
    intro i h
    cases h
  | cons x t ih =>
    intro i h hnd hget
    have hnd' : (∀ y ∈ t, ¬y.id = x.id) ∧ (t.map (fun im => im.id)).Nodup := by
      simpa using hnd
    cases i with
    | zero =>
      rw [List.find?_cons_of_pos _ (by simpa using hget)]
      rfl
    | succ j =>
      have hj : j < t.length := by
        simpa using h
      have hget' : (t.get ⟨j, hj⟩).id = id := hget
      have hxid : x.id ≠ id := by
        intro hx
        exact hnd'.1 (t.get ⟨j, hj⟩) (List.get_mem _ _ _) (hget'.trans hx.symm)
      rw [List.find?_cons_of_neg _ (by simpa using hxid)]
      exact ih j hj hnd'.2 hget'

theorem filter_ne_eq_eraseIdx (id : Nat) :
    ∀ (l : List ImageFile) (i : Nat) (h : i < l.length),
      (l.map (fun im => im.id)).Nodup → (l.get ⟨i, h⟩).id = id →
      l.filter (fun im => im.id != id) = l.eraseIdx i := by
  intro l
  induction l with
  | nil =>
    intro i h
    cases h
  | cons x t ih =>
    intro i h hnd hget
    have hnd' : (∀ y ∈ t, ¬y.id = x.id) ∧ (t.map (fun im => im.id)).Nodup := by
      simpa using hnd
    cases i with
    | zero =>
      have hx : x.id = id := hget
      rw [List.filter_cons_of_neg (by simp [hx])]
      have hall : ∀ a ∈ t, (a.id != id) = true := by
        intro a ha
        simp only [bne_iff_ne, ne_eq]
        intro haid
        exact hnd'.1 a ha (haid.trans hx.symm)
      rw [List.filter_eq_self.mpr hall]
      rfl
    | succ j =>
      have hj : j < t.length := by
        simpa using h
      have hget' : (t.get ⟨j, hj⟩).id = id := hget
      have hxid : x.id ≠ id := by
        intro hx
        exact hnd'.1 (t.get ⟨j, hj⟩) (List.get_mem _ _ _) (hget'.trans hx.symm)
      rw [List.filter_cons_of_pos (by simpa using hxid)]
      rw [ih j hj hnd'.2 hget']
      rfl

/-- C3: with pairwise-distinct ids and every preview tracked by the
lifecycle manager, handleDelete of an existing id passes that item's
preview handle to URL.revokeObjectURL exactly once, removes it from the
tracked set, and yields the sequence with exactly that item removed and the
others in their original order; handleDelete of an id not present leaves
the sequence (and tracked set) unchanged and revokes nothing. -/
theorem claim_C3 (fails : Nat → Bool) (st : UploaderState) (id : Nat)
    (hnd : (st.images.map (fun im => im.id)).Nodup)
    (htr : ∀ img ∈ st.images, img.preview ∈ st.urls) :
    (∀ i (h : i < st.images.length), (st.images.get ⟨i, h⟩).id = id →
       handleDelete fails st id =
         .ok ({ st with images := st.images.eraseIdx i,
                        urls := st.urls.erase (st.images.get ⟨i, h⟩).preview },
              { errors := if fails (st.images.get ⟨i, h⟩).preview then
                  [{ code := .UNKNOWN, message := .cleanupFailed, file := none }] else [],
                changes := [st.images.eraseIdx i],
                acquired := [],
                revoked := [(st.images.get ⟨i, h⟩).preview] })) ∧
    ((∀ img ∈ st.images, img.id ≠ id) →
       handleDelete fails st id =
         .ok (st, { errors := [], changes := [st.images], acquired := [], revoked := [] })) := by
  constructor
  · intro i h hget
    have hfind := find_id_eq_get id st.images i h hnd hget
    have hfilter := filter_ne_eq_eraseIdx id st.images i h hnd hget
    have hurl := htr _ (List.get_mem st.images i h)
    unfold handleDelete
    rw [hfind]
    have hurl2 : st.images[i].preview ∈ st.urls := hurl
    by_cases hf : fails st.images[i].preview <;>
      simp [revokeObjectURL_eq, hurl2, hfilter, hf]
  · intro hno
    have hfind : st.images.find? (fun img => img.id == id) = none :=
      List.find?_eq_none.mpr (by intro x hx; simpa using hno x hx)
    have hfilter : st.images.filter (fun img => img.id != id) = st.images :=
      List.filter_eq_self.mpr (by intro a ha; simpa using hno a ha)
    unfold handleDelete
    rw [hfind, hfilter]

/-- Witness for C3: deleting the only item of the one-element sample state
revokes its preview and empties the sequence. -/
theorem claim_C3_witness :
    handleDelete (fun _ => false) sampleSt 0 =
      .ok ({ sampleSt with images := [], urls := [] },
           { errors := [], changes := [[]], acquired := [], revoked := [0] }) := by
  have h := (claim_C3 (fun _ => false) sampleSt 0 (by decide) (by decide)).1 0
    (by decide) (by decide)
  exact h

/-- C4 round trip: adding one valid file (dropzone enabled, capacity
available) and then deleting the id it was assigned returns the image
sequence and the tracked URL set to their prior state; exactly one preview
handle is acquired by the Add and exactly that handle is passed to
URL.revokeObjectURL by the Remove. -/
theorem claim_C4 (cfg : Config) (st : UploaderState) (f : JsFile) (fails : Nat → Bool)
    (hdis : cfg.disabled = false)
    (hvalid : validateFile f cfg.maxFileSize cfg.acceptedFileTypes = none)
    (hcap : ∀ n, cfg.maxFiles = some n → n = 0 ∨ st.images.length < n)
    (hfreshId : ∀ img ∈ st.images, img.id ≠ st.nextId)
    (hfreshUrl : st.nextUrl ∉ st.urls) :
    (handleFileSelect cfg st [f]).2.acquired = [st.nextUrl] ∧
    handleDelete fails (handleFileSelect cfg st [f]).1 st.nextId =
      .ok ({ st with nextId := st.nextId + 1, nextUrl := st.nextUrl + 1 },
           { errors := if fails st.nextUrl then
                [{ code := .UNKNOWN, message := .cleanupFailed, file := none }] else [],
             changes := [st.images],
             acquired := [],
             revoked := [st.nextUrl] }) := by
  have hsel := handleFileSelect_all_valid cfg st [f] hdis (by simp)
    (by intro g hg
        rw [List.mem_singleton.mp hg]
        exact hvalid)
    (by intro n hn
        rcases hcap n hn with h0 | hlt
        · exact Or.inl h0
        · right
          simpa using hlt)
  rw [hsel]
  simp only [mkNewImages]
  constructor
  · rfl
  · have hfind : (st.images ++ [⟨st.nextId, f, st.nextUrl⟩] : List ImageFile).find?
        (fun img => img.id == st.nextId) = some ⟨st.nextId, f, st.nextUrl⟩ := by
      rw [List.find?_append, List.find?_eq_none.mpr
        (by intro x hx; simpa using hfreshId x hx)]
      simp
    have hmem : st.nextUrl ∈ st.urls ++ [st.nextUrl] := by
      simp
    have herase : (st.urls ++ [st.nextUrl]).erase st.nextUrl = st.urls := by
      rw [List.erase_append_right _ hfreshUrl]
      simp
    have hfilt : (st.images ++ [⟨st.nextId, f, st.nextUrl⟩] : List ImageFile).filter
        (fun img => img.id != st.nextId) = st.images := by
      rw [List.filter_append]
      rw [List.filter_eq_self.mpr (by intro a ha; simpa using hfreshId a ha)]
      simp
    unfold handleDelete
    rw [hfind]
    by_cases hf : fails st.nextUrl <;>
      simp [revokeObjectURL_eq, hmem, herase, hfilt, hf]

/-- Witness for C4: add a png to the empty state, then delete it. -/
theorem claim_C4_witness :
    handleDelete (fun _ => false) (handleFileSelect sampleCfg sampleEmptySt [samplePng]).1 0 =
      .ok ({ sampleEmptySt with nextId := 1, nextUrl := 1 },
           { errors := [], changes := [[]], acquired := [], revoked := [0] }) := by
  have h := (claim_C4 sampleCfg sampleEmptySt samplePng (fun _ => false) rfl (by decide)
    (by intro n hn
        have hn1 : n = 1 := (Option.some.inj hn).symm
        subst hn1
        right
        decide)
    (by intro img h; cases h) (by decide)).2
  exact h

/-! Helper lemmas for the Move operation. -/

theorem perm_cons_eraseIdx {α : Type} :
    ∀ (l : List α) (i : Nat) (h : i < l.length),
      l.Perm (l.get ⟨i, h⟩ :: l.eraseIdx i) := by
  intro l
  induction l with
  | nil =>
    intro i h
    cases h
  | cons x t ih =>
    intro i h
    cases i with
    | zero => exact List.Perm.refl _
    | succ j =>
      have hj : j < t.length := by
        simpa using h
      show (x :: t).Perm (t.get ⟨j, hj⟩ :: x :: t.eraseIdx j)
      exact ((ih j hj).cons x).trans (List.Perm.swap _ _ _)

theorem arrayMove_perm (l : List ImageFile) (i j : Nat)
    (hi : i < l.length) (hj : j < l.length) : (arrayMove l i j).Perm l := by
  unfold arrayMove
  simp only [List.get?_eq_get hi]
  have hj' : j ≤ (l.eraseIdx i).length := by
    rw [List.length_eraseIdx_of_lt hi]
    omega
  exact (List.perm_insertIdx _ _ hj').trans (perm_cons_eraseIdx l i hi).symm

theorem arrayMove_get_target (l : List ImageFile) (i j : Nat)
    (hi : i < l.length) (hj : j < l.length) :
    (arrayMove l i j).get? j = l.get? i := by
  unfold arrayMove
  simp only [List.get?_eq_get hi]
  have hj' : j ≤ (l.eraseIdx i).length := by
    rw [List.length_eraseIdx_of_lt hi]
    omega
  have hlen : j < ((l.eraseIdx i).insertIdx j (l.get ⟨i, hi⟩)).length := by
    rw [List.length_insertIdx _ _ hj']
    omega
  rw [List.get?_eq_get hlen]
  have hval := List.getElem_insertIdx_self (l.eraseIdx i) (l.get ⟨i, hi⟩) j hj'
  simpa using hval

/-- C8: a drop completion always yields a permutation of the sequence (the
id multiset is preserved, only order changes); when the active and over ids
resolve to distinct existing items the active item is relocated to the over
item's original position; when the ids are equal, the over target is
missing, or either id does not resolve, the sequence is unchanged and no
reorder is announced. -/
theorem claim_C8 (images : List ImageFile) (activeId : Nat) (overId : Option Nat) :
    (handleDragEnd images activeId overId).1.Perm images ∧
    ((handleDragEnd images activeId overId).1.map (fun i => i.id)).Perm
      (images.map (fun i => i.id)) ∧
    (overId = some activeId → handleDragEnd images activeId overId = (images, [])) ∧
    (overId = none → handleDragEnd images activeId overId = (images, [])) ∧
    (∀ o, overId = some o →
       images.findIdx? (fun item => item.id == activeId) = none ∨
         images.findIdx? (fun item => item.id == o) = none →
       handleDragEnd images activeId overId = (images, [])) ∧
    (∀ o i j, overId = some o → activeId ≠ o →
       images.findIdx? (fun item => item.id == activeId) = some i →
       images.findIdx? (fun item => item.id == o) = some j →
       (handleDragEnd images activeId overId).1.get? j = images.get? i) := by
  have hperm : (handleDragEnd images activeId overId).1.Perm images := by
    rcases overId with _ | o
    · exact List.Perm.refl _
    · simp only [handleDragEnd]
      by_cases he : activeId == o
      · rw [if_pos he]
      · rw [if_neg he]
        cases hA : images.findIdx? (fun item => item.id == activeId) with
        | none => exact List.Perm.refl _
        | some i =>
          cases hB : images.findIdx? (fun item => item.id == o) with
          | none => exact List.Perm.refl _
          | some j =>
            simp only []
            by_cases hij : i ≠ j
            · obtain ⟨hi, -, -⟩ := List.findIdx?_eq_some_iff_getElem.mp hA
              obtain ⟨hj, -, -⟩ := List.findIdx?_eq_some_iff_getElem.mp hB
              rw [if_pos hij]
              exact arrayMove_perm images i j hi hj
            · rw [if_neg hij]
  refine ⟨hperm, hperm.map _, ?_, ?_, ?_, ?_⟩
  · intro h
    subst h
    simp only [handleDragEnd]
    simp
  · intro h
    subst h
    rfl
  · intro o ho hnone
    subst ho
    simp only [handleDragEnd]
    by_cases he : activeId == o
    · rw [if_pos he]
    · rw [if_neg he]
      rcases hnone with hA | hB
      · rw [hA]
      · rw [hB]
        cases images.findIdx? (fun item => item.id == activeId) <;> rfl
  · intro o i j ho hne hA hB
    subst ho
    have hbeq : (activeId == o) = false := by
      simpa using hne
    obtain ⟨hi, hpi, -⟩ := List.findIdx?_eq_some_iff_getElem.mp hA
    obtain ⟨hj, hpj, -⟩ := List.findIdx?_eq_some_iff_getElem.mp hB
    have hij : i ≠ j := by
      intro hEq
      apply hne
      subst hEq
      have h1 : images[i].id = activeId := by
        simpa using hpi
      have h2 : images[i].id = o := by
        simpa using hpj
      rw [← h1, h2]
    simp only [handleDragEnd]
    rw [hbeq]
    simp only [Bool.false_eq_true, if_false, hA, hB]
    rw [if_pos hij]
    exact arrayMove_get_target images i j hi hj

/-- Witness for C8: dropping the item with id 0 onto the item with id 2 in
the three-element sample sequence puts it at index 2. -/
theorem claim_C8_witness :
    (handleDragEnd sampleSeq 0 (some 2)).1.get? 2 = sampleSeq.get? 0 :=
  (claim_C8 sampleSeq 0 (some 2)).2.2.2.2.2 2 0 2 rfl (by decide) (by decide) (by decide)

/-- handleDelete always returns normally and always hands the full filtered
sequence to onImagesChange, even when the id is absent. -/
theorem handleDelete_changes (fails : Nat → Bool) (st : UploaderState) (id : Nat) :
    ∃ st' eff, handleDelete fails st id = .ok (st', eff) ∧
      st'.images = st.images.filter (fun img => img.id != id) ∧
      eff.changes = [st'.images] := by
  unfold handleDelete
  cases hfind : st.images.find? (fun img => img.id == id) with
  | none => exact ⟨_, _, rfl, rfl, rfl⟩
  | some img =>
    simp only []
    rw [revokeObjectURL_eq]
    by_cases hm : img.preview ∈ st.urls
    · rw [if_pos hm]
      exact ⟨_, _, rfl, rfl, rfl⟩
    · rw [if_neg hm]
      exact ⟨_, _, rfl, rfl, rfl⟩

/-- C9 counterexample: Remove of an id absent from the sequence still
invokes onImagesChange, with the unchanged sequence: deleting id 7 from the
one-element sample state (holding only id 0) produces one onImagesChange
call carrying the unchanged sequence, where the claim requires no
invocation. -/
theorem claim_C9_counterexample :
    handleDelete (fun _ => false) sampleSt 7 =
      .ok (sampleSt,
           { errors := [], changes := [[sampleImg]], acquired := [], revoked := [] }) ∧
    sampleSt.images = [sampleImg] := by
  decide

/-- C9 amended: onImagesChange always receives the complete new ordered
sequence, never a delta.  Add invokes it exactly when it inserts at least
one file (the sequence strictly grows), and not on a no-op call; Move
invokes it exactly on the reorder branch; Remove invokes it on every call
with the full filtered sequence - including Remove of an absent id, where
the sequence passed is unchanged. -/
theorem claim_C9 (cfg : Config) (st : UploaderState) (files : List JsFile)
    (fails : Nat → Bool) (id : Nat)
    (images : List ImageFile) (activeId : Nat) (overId : Option Nat) :
    ((handleFileSelect cfg st files).2.changes = [] ∧
       (handleFileSelect cfg st files).1.images = st.images ∨
     (handleFileSelect cfg st files).2.changes = [(handleFileSelect cfg st files).1.images] ∧
       st.images.length < (handleFileSelect cfg st files).1.images.length) ∧
    (∀ st' eff, handleDelete fails st id = .ok (st', eff) →
       eff.changes = [st'.images] ∧
       st'.images = st.images.filter (fun img => img.id != id)) ∧
    ((handleDragEnd images activeId overId).2 = [] ∧
       (handleDragEnd images activeId overId).1 = images ∨
     (handleDragEnd images activeId overId).2 = [(handleDragEnd images activeId overId).1]) := by
  refine ⟨?_, ?_, ?_⟩
  · by_cases hdis : cfg.disabled
    · rw [handleFileSelect_disabled cfg st files hdis]
      exact Or.inl ⟨rfl, rfl⟩
    have hdis' : cfg.disabled = false := by
      simpa using hdis
    by_cases hne : files = []
    · subst hne
      rw [handleFileSelect_nil]
      exact Or.inl ⟨rfl, rfl⟩
    by_cases hnv : files.filter
        (fun g => (validateFile g cfg.maxFileSize cfg.acceptedFileTypes).isNone) = []
    · rw [handleFileSelect_no_valid cfg st files hdis' hne hnv]
      exact Or.inl ⟨rfl, rfl⟩
    have hpos : 0 < (files.filter
        (fun g => (validateFile g cfg.maxFileSize cfg.acceptedFileTypes).isNone)).length :=
      List.length_pos.mpr hnv
    rcases hmf : cfg.maxFiles with _ | n
    · rw [handleFileSelect_fits cfg st files hdis' hne hnv
        (by intro m h; rw [hmf] at h; cases h)]
      refine Or.inr ⟨rfl, ?_⟩
      simp [mkNewImages_length]
      omega
    · by_cases hn : n = 0
      · rw [handleFileSelect_fits cfg st files hdis' hne hnv
          (by intro m h
              rw [hmf] at h
              have hm : n = m := Option.some.inj h
              omega)]
        refine Or.inr ⟨rfl, ?_⟩
        simp [mkNewImages_length]
        omega
      · by_cases hfull : n ≤ st.images.length
        · rw [handleFileSelect_full cfg st files n hdis' hne hnv hmf hn hfull]
          exact Or.inl ⟨rfl, rfl⟩
        · have hlt : st.images.length < n := by omega
          by_cases hexc : (files.filter
              (fun g => (validateFile g cfg.maxFileSize cfg.acceptedFileTypes).isNone)).length
                > n - st.images.length
          · rw [handleFileSelect_trunc cfg st files n hdis' hne hmf hlt hexc]
            refine Or.inr ⟨rfl, ?_⟩
            have hlen : ((files.filter (fun g =>
                (validateFile g cfg.maxFileSize cfg.acceptedFileTypes).isNone)).take
                  (n - st.images.length)).length = n - st.images.length :=
              List.length_take_of_le (by omega)
            simp [mkNewImages_length, hlen]
            omega
          · rw [handleFileSelect_fits cfg st files hdis' hne hnv
              (by intro m h
                  rw [hmf] at h
                  have hm : n = m := Option.some.inj h
                  subst hm
                  exact Or.inr ⟨hlt, by omega⟩)]
            refine Or.inr ⟨rfl, ?_⟩
            simp [mkNewImages_length]
            omega
  · intro st' eff h
    obtain ⟨st2, eff2, heq, h1, h2⟩ := handleDelete_changes fails st id
    rw [heq] at h
    have hpair := JsResult.ok.inj h
    obtain ⟨rfl, rfl⟩ : st2 = st' ∧ eff2 = eff :=
      ⟨congrArg Prod.fst hpair, congrArg Prod.snd hpair⟩
    exact ⟨h2, h1⟩
  · rcases overId with _ | o
    · exact Or.inl ⟨rfl, rfl⟩
    · simp only [handleDragEnd]
      by_cases he : activeId == o
      · rw [if_pos he]
        exact Or.inl ⟨rfl, rfl⟩
      · rw [if_neg he]
        cases hA : images.findIdx? (fun item => item.id == activeId) with
        | none => exact Or.inl ⟨rfl, rfl⟩
        | some i =>
          cases hB : images.findIdx? (fun item => item.id == o) with
          | none => exact Or.inl ⟨rfl, rfl⟩
          | some j =>
            simp only []
            by_cases hij : i ≠ j
            · rw [if_pos hij]
              exact Or.inr rfl
            · rw [if_neg hij]
              exact Or.inl ⟨rfl, rfl⟩

/-- Witness for the amended C9: deleting the absent id 7 still reports the
(unchanged) full sequence through onImagesChange. -/
theorem claim_C9_witness :
    ({ errors := [], changes := [[sampleImg]], acquired := [], revoked := [] } : Effects).changes
      = [(sampleSt : UploaderState).images] ∧
    (sampleSt : UploaderState).images = sampleSt.images.filter (fun img => img.id != 7) :=
  (claim_C9 sampleCfg sampleSt [] (fun _ => false) 7 [] 0 none).2.1 sampleSt
    { errors := [], changes := [[sampleImg]], acquired := [], revoked := [] } (by decide)
